import Mathlib

/-!
Verification of the identity-resolution and confidence-scoring pipeline of the
Researcher-Scraper repository.  The definitions below are a shallow embedding
of the TypeScript source: JavaScript strings become Lean `String`, optional
fields become `Option String` with the JavaScript notion of truthiness (absent
or empty string is falsy), scores become rationals, and the in-memory `Map`
used by deduplication becomes an insertion-ordered association list.
-/

/-- JavaScript truthiness for an optional string: `undefined` and the empty
string are falsy, every other string is truthy. -/
def truthy : Option String → Bool
  | none => false
  | some s => !(s == "")

/-- `String.prototype.toLowerCase`, as a structurally recursive map over the
characters so that proofs can evaluate it. -/
def strLower (s : String) : String :=
  ⟨s.data.map Char.toLower⟩

/-- Strip leading and trailing whitespace from a character list. -/
def trimChars (l : List Char) : List Char :=
  ((l.dropWhile Char.isWhitespace).reverse.dropWhile Char.isWhitespace).reverse

/-- `String.prototype.trim`. -/
def strTrim (s : String) : String :=
  ⟨trimChars s.data⟩

/-- `Math.min` on the rational model of JavaScript numbers. -/
def qmin (a b : ℚ) : ℚ :=
  if a ≤ b then a else b

/-- `Math.max` on the rational model of JavaScript numbers. -/
def qmax (a b : ℚ) : ℚ :=
  if a ≤ b then b else a

/-- The JavaScript `a || b` idiom on optional strings. -/
def jsOr (a b : Option String) : Option String :=
  if truthy a then a else b

/-- Whether the character sequence `needle` occurs contiguously inside `hay`,
mirroring `String.prototype.includes`. -/
def listContainsSeq (needle : List Char) : List Char → Bool
  | [] => needle.isEmpty
  | c :: rest => needle.isPrefixOf (c :: rest) || listContainsSeq needle rest

/-- `hay.includes(needle)` from JavaScript. -/
def strIncludes (hay needle : String) : Bool :=
  listContainsSeq needle.toList hay.toList

/-- The three location-confidence tiers of `PublicResearcher`. -/
inductive Confidence where
  | low
  | medium
  | high
deriving DecidableEq, Repr

/-- The `confRank` table of `deduplicatePeople`: low 0, medium 1, high 2. -/
def confRank : Confidence → Nat
  | .low => 0
  | .medium => 1
  | .high => 2

/-- The `PublicResearcher` record from `types.ts`.  `researchScore` is modelled
as a rational in place of a JavaScript number. -/
structure PublicResearcher where
  name : String
  title : Option String
  company : Option String
  location : Option String
  locationConfidence : Confidence
  githubUrl : Option String
  openAlexUrl : Option String
  homepageUrl : Option String
  xaiPageUrl : Option String
  otherSources : List String
  isResearchLike : Bool
  researchScore : ℚ
  notes : Option String
deriving DecidableEq, Repr

/-- The `Researcher` record from `scraper-researchers.ts`. -/
structure Researcher where
  name : String
  title : Option String
  location : Option String
  githubUsername : Option String
  twitterUsername : Option String
  email : Option String
  source : String
  sourceUrl : String
  confidence : Confidence
  researchArea : Option String
deriving DecidableEq, Repr

/-- The research keyword table shared by `isResearchLike` and
`computeResearchScore`. -/
def researchKeywords : List String :=
  ["research", "scientist", "machine learning", "ml", "ai",
   "deep learning", "nlp", "vision", "robotics"]

/-- `isResearchLike(text)`: true when some research keyword occurs in the
text. -/
def isResearchLike (text : String) : Bool :=
  researchKeywords.any (fun k => strIncludes text k)

/-- The `hits` count of `computeResearchScore`: how many research keywords
occur in the text. -/
def researchHits (text : String) : Nat :=
  (researchKeywords.filter (fun k => strIncludes text k)).length

/-- `computeResearchScore(text)`: `min(1, hits / keywords.length + 0.2)` where
`hits` counts the keywords occurring in the text. -/
def computeResearchScore (text : String) : ℚ :=
  qmin 1 ((researchHits text : ℚ) / (researchKeywords.length : ℚ) + 1/5)

/-- The high-confidence locality keywords of `assessLocationConfidence`. -/
def highConfidenceKeywords : List String :=
  ["palo alto", "menlo park", "mountain view", "sunnyvale",
   "san francisco", "sf,", "redwood city", "cupertino"]

/-- The medium-confidence region keywords of `assessLocationConfidence`. -/
def mediumConfidenceKeywords : List String :=
  ["bay area", "silicon valley", "san jose", "california", "ca",
   "oakland", "berkeley", "fremont", "santa clara"]

/-- `assessLocationConfidence(location)`: low for empty text, else high when a
high-tier keyword occurs in the lower-cased text, else medium when a
medium-tier keyword occurs, else low.  Used by `fetchGitHubContributors`. -/
def assessLocationConfidence (location : String) : Confidence :=
  if location = "" then .low
  else
    let loc := strLower location
    if highConfidenceKeywords.any (fun k => strIncludes loc k) then .high
    else if mediumConfidenceKeywords.any (fun k => strIncludes loc k) then .medium
    else .low

/-- The inline location-confidence rule of `fetchGitHubOrgMembers`: high when
the (truthy) location mentions palo alto, medium for any other truthy
location, low otherwise. -/
def orgMemberLocationConfidence (location : Option String) : Confidence :=
  if truthy location then
    if strIncludes (strLower (location.getD "")) "palo alto" then .high else .medium
  else .low

/-- The inline location-confidence rule of `fetchOrgContributors` in
`githubReposScraper.ts`, applied to the already-trimmed location string. -/
def contribLocationConfidence (location : String) : Confidence :=
  if location = "" then .low
  else if strIncludes (strLower location) "palo alto" then .high
  else .medium

/-- The OpenAlex score heuristic `min(1, 0.3 + log10(worksCount + 1) / 2)`;
the real-valued `log10(worksCount + 1)`, nonnegative because `worksCount` is a
count, is abstracted as a nonnegative rational input. -/
def openAlexScore (logTerm : ℚ) : ℚ :=
  qmin 1 (3/10 + logTerm / 2)

/-- The merge key of `deduplicatePeople`:
`person.githubUrl || person.openAlexUrl || person.name.toLowerCase().trim()`. -/
def mergeKey (p : PublicResearcher) : String :=
  if truthy p.githubUrl then p.githubUrl.getD ""
  else if truthy p.openAlexUrl then p.openAlexUrl.getD ""
  else strTrim (strLower p.name)

/-- The merge key as the specification words it: the first non-empty identity
link in priority order profile (GitHub) link, academic (OpenAlex) link,
homepage link, else the normalized display name.  Stated from the spec for
comparison with `mergeKey`. -/
def specMergeKey (p : PublicResearcher) : String :=
  if truthy p.githubUrl then p.githubUrl.getD ""
  else if truthy p.openAlexUrl then p.openAlexUrl.getD ""
  else if truthy p.homepageUrl then p.homepageUrl.getD ""
  else strTrim (strLower p.name)

/-- `Array.from(new Set(l))`: deduplication keeping first occurrences in
order. -/
def dedupFirstGo : List String → List String → List String
  | _, [] => []
  | seen, a :: rest =>
      if a ∈ seen then dedupFirstGo seen rest
      else a :: dedupFirstGo (a :: seen) rest

/-- Deduplicate a list of strings keeping the first occurrence of each. -/
def dedupFirst (l : List String) : List String :=
  dedupFirstGo [] l

/-- `[merged.notes, person.notes].filter(Boolean).join(' | ')`. -/
def mergeNotes (a b : Option String) : Option String :=
  some (String.intercalate " | "
    (([a, b].filterMap id).filter (fun s => !(s == ""))))

/-- The merge branch of `deduplicatePeople`: fold the later candidate `person`
into the stored identity `existing`. -/
def mergePeople (existing person : PublicResearcher) : PublicResearcher :=
  { name := existing.name
    title := jsOr existing.title person.title
    company := jsOr existing.company person.company
    location := jsOr existing.location person.location
    locationConfidence :=
      if confRank person.locationConfidence > confRank existing.locationConfidence
      then person.locationConfidence else existing.locationConfidence
    githubUrl := jsOr existing.githubUrl person.githubUrl
    openAlexUrl := jsOr existing.openAlexUrl person.openAlexUrl
    homepageUrl := jsOr existing.homepageUrl person.homepageUrl
    xaiPageUrl := jsOr existing.xaiPageUrl person.xaiPageUrl
    otherSources := dedupFirst (existing.otherSources ++ person.otherSources)
    isResearchLike := existing.isResearchLike || person.isResearchLike
    researchScore := qmin 1 (qmax existing.researchScore person.researchScore + 1/10)
    notes := mergeNotes existing.notes person.notes }

/-- Lookup in the insertion-ordered association list modelling the JavaScript
`Map` of `deduplicatePeople`. -/
def lookupAssoc (k : String) : List (String × PublicResearcher) → Option PublicResearcher
  | [] => none
  | (k', v) :: rest => if k' = k then some v else lookupAssoc k rest

/-- `Map.set` semantics: update the entry in place when the key exists,
otherwise append at the end (insertion order preserved). -/
def setAssoc (k : String) (v : PublicResearcher) :
    List (String × PublicResearcher) → List (String × PublicResearcher)
  | [] => [(k, v)]
  | (k', v') :: rest =>
      if k' = k then (k, v) :: rest else (k', v') :: setAssoc k v rest

/-- One iteration of the `deduplicatePeople` loop. -/
def dedupStep (acc : List (String × PublicResearcher)) (p : PublicResearcher) :
    List (String × PublicResearcher) :=
  let k := mergeKey p
  match lookupAssoc k acc with
  | none => acc ++ [(k, p)]
  | some existing => setAssoc k (mergePeople existing p) acc

/-- `deduplicatePeople`: fold the candidate stream into the keyed working set
and return the identities in insertion order. -/
def deduplicatePeople (people : List PublicResearcher) : List PublicResearcher :=
  (people.foldl dedupStep []).map Prod.snd

/-- The Bay Area keyword table of `exportResults`. -/
def bayAreaKeywords : List String :=
  ["palo alto", "bay area", "san francisco", "mountain view", "menlo park",
   "sunnyvale", "redwood city", "cupertino", "silicon valley", "san jose",
   "oakland", "berkeley", "fremont", "santa clara", "sf,", "california", "ca"]

/-- The per-identity predicate of the `bayAreaPeople` filter in
`exportResults`: some Bay Area keyword occurs in the lower-cased location,
with a missing location treated as the empty string. -/
def bayAreaKeep (p : PublicResearcher) : Bool :=
  bayAreaKeywords.any (fun k => strIncludes (strLower (p.location.getD "")) k)

/-- The `bayAreaPeople` filter of `exportResults`. -/
def bayAreaFilter (people : List PublicResearcher) : List PublicResearcher :=
  people.filter bayAreaKeep

/-- The per-identity predicate of `filterByPaloAlto` in
`scraper-researchers.ts`: the location mentions palo alto or bay area, or the
location is falsy (absent or empty). -/
def paloAltoKeep (r : Researcher) : Bool :=
  (match r.location with
   | some l => strIncludes (strLower l) "palo alto" || strIncludes (strLower l) "bay area"
   | none => false) || !(truthy r.location)

/-- `filterByPaloAlto` from `scraper-researchers.ts`. -/
def filterByPaloAlto (rs : List Researcher) : List Researcher :=
  rs.filter paloAltoKeep

/-- Scores a source connector can attach to a fresh candidate: a keyword score
from `computeResearchScore`, an OpenAlex heuristic score, or one of the fixed
constants used by the xAI-site, Twitter, Reddit, Hacker News, press-mention
and org-contributor sources. -/
def SourceScore (q : ℚ) : Prop :=
  (∃ t, q = computeResearchScore t) ∨
  (∃ x : ℚ, 0 ≤ x ∧ q = openAlexScore x) ∨
  q = 0 ∨ q = 1/5 ∨ q = 3/10 ∨ q = 2/5 ∨ q = 1/2 ∨ q = 3/5

/-- A baseline candidate record for the concrete examples below. -/
def candBase : PublicResearcher :=
  { name := "Base", title := none, company := some "xAI", location := none,
    locationConfidence := .low, githubUrl := none, openAlexUrl := none,
    homepageUrl := none, xaiPageUrl := none, otherSources := ["src"],
    isResearchLike := false, researchScore := 1/5, notes := none }

/-- Candidate carrying both a GitHub link and an OpenAlex link. -/
def candGhOa : PublicResearcher :=
  { candBase with
      name := "alice"
      githubUrl := some "https://github.com/alice"
      openAlexUrl := some "https://openalex.org/A1" }

/-- Candidate carrying the same GitHub link as `candGhOa` and a higher
score. -/
def candGhOa2 : PublicResearcher :=
  { candBase with
      name := "alice two"
      githubUrl := some "https://github.com/alice"
      researchScore := 9/10 }

/-- Candidate carrying only the OpenAlex link of `candGhOa`. -/
def candOaOnly : PublicResearcher :=
  { candBase with name := "bob", openAlexUrl := some "https://openalex.org/A1" }

/-- Candidate whose only identity link is a homepage. -/
def candHomeOnly : PublicResearcher :=
  { candBase with name := "Alice Smith", homepageUrl := some "https://alice.example" }

/-- Identity with a stored low-confidence location. -/
def identNY : PublicResearcher :=
  { candBase with location := some "New York", locationConfidence := .low }

/-- Candidate with a high-confidence location. -/
def candPA : PublicResearcher :=
  { candBase with location := some "Palo Alto, CA", locationConfidence := .high }

/-- Identity whose location is entirely unknown but whose confidence field is
high. -/
def identUnknownLoc : PublicResearcher :=
  { candBase with location := none, locationConfidence := .high }

/-- Candidate whose score was produced by `computeResearchScore`. -/
def candScored : PublicResearcher :=
  { candBase with
      name := "dora"
      githubUrl := some "https://github.com/dora"
      researchScore := computeResearchScore "ml research" }

/-- Two same-key candidates that disagree on their OpenAlex link. -/
def candOaP : PublicResearcher :=
  { candBase with
      name := "ann"
      githubUrl := some "https://github.com/team"
      openAlexUrl := some "https://openalex.org/P"
      otherSources := ["sa"] }

/-- See `candOaP`. -/
def candOaQ : PublicResearcher :=
  { candBase with
      name := "ben"
      githubUrl := some "https://github.com/team"
      openAlexUrl := some "https://openalex.org/Q"
      otherSources := ["sb"] }

/-- A scraped researcher with no recorded location. -/
def researcherNoLoc : Researcher :=
  { name := "Carol", title := none, location := none, githubUsername := none,
    twitterUsername := none, email := none, source := "GitHub - Grok Contributor",
    sourceUrl := "https://github.com/carol", confidence := .high,
    researchArea := none }

/-! ### Helper lemmas -/

theorem qmin_eq_min (a b : ℚ) : qmin a b = min a b := by
  unfold qmin
  by_cases h : a ≤ b <;> simp [h, min_def]

theorem qmax_eq_max (a b : ℚ) : qmax a b = max a b := by
  unfold qmax
  by_cases h : a ≤ b <;> simp [h, max_def]

theorem jsOr_self (a : Option String) : jsOr a a = a := by
  unfold jsOr
  split <;> rfl

theorem lookupAssoc_mem {k : String} {v : PublicResearcher} :
    ∀ {l : List (String × PublicResearcher)}, lookupAssoc k l = some v → (k, v) ∈ l := by
  intro l
  induction l with
  | nil => intro h; simp [lookupAssoc] at h
  | cons e rest ih =>
      intro h
      obtain ⟨k', v'⟩ := e
      by_cases hk : k' = k
      · subst hk
        simp [lookupAssoc] at h
        subst h
        exact List.mem_cons_self _ _
      · simp only [lookupAssoc, if_neg hk] at h
        exact List.mem_cons_of_mem _ (ih h)

theorem setAssoc_mem {k : String} {v : PublicResearcher} :
    ∀ {l : List (String × PublicResearcher)} {e : String × PublicResearcher},
      e ∈ setAssoc k v l → e = (k, v) ∨ e ∈ l := by
  intro l
  induction l with
  | nil =>
      intro e he
      simp [setAssoc] at he
      exact Or.inl he
  | cons hd rest ih =>
      intro e he
      obtain ⟨k', v'⟩ := hd
      by_cases hk : k' = k
      · simp only [setAssoc, if_pos hk] at he
        rcases List.mem_cons.mp he with h1 | h1
        · exact Or.inl h1
        · exact Or.inr (List.mem_cons_of_mem _ h1)
      · simp only [setAssoc, if_neg hk] at he
        rcases List.mem_cons.mp he with h1 | h1
        · exact Or.inr (h1 ▸ List.mem_cons_self _ _)
        · rcases ih h1 with h2 | h2
          · exact Or.inl h2
          · exact Or.inr (List.mem_cons_of_mem _ h2)

theorem mem_dedupFirstGo (x : String) :
    ∀ (l seen : List String), x ∈ dedupFirstGo seen l ↔ x ∈ l ∧ x ∉ seen := by
  intro l
  induction l with
  | nil => intro seen; simp [dedupFirstGo]
  | cons a rest ih =>
      intro seen
      by_cases ha : a ∈ seen
      · rw [dedupFirstGo, if_pos ha, ih]
        constructor
        · rintro ⟨hr, hs⟩
          exact ⟨List.mem_cons_of_mem _ hr, hs⟩
        · rintro ⟨hm, hs⟩
          rcases List.mem_cons.mp hm with h1 | h1
          · exact absurd (h1 ▸ ha) hs
          · exact ⟨h1, hs⟩
      · rw [dedupFirstGo, if_neg ha]
        constructor
        · intro hx
          rcases List.mem_cons.mp hx with h1 | h1
          · exact ⟨h1 ▸ List.mem_cons_self _ _, h1 ▸ ha⟩
          · obtain ⟨hr, hs⟩ := (ih (a :: seen)).mp h1
            refine ⟨List.mem_cons_of_mem _ hr, fun hc => hs (List.mem_cons_of_mem _ hc)⟩
        · rintro ⟨hm, hs⟩
          rcases List.mem_cons.mp hm with h1 | h1
          · exact h1 ▸ List.mem_cons_self _ _
          · by_cases hxa : x = a
            · exact hxa ▸ List.mem_cons_self _ _
            · refine List.mem_cons_of_mem _ ((ih (a :: seen)).mpr ⟨h1, ?_⟩)
              intro hc
              rcases List.mem_cons.mp hc with h2 | h2
              · exact hxa h2
              · exact hs h2

theorem mem_dedupFirst (x : String) (l : List String) : x ∈ dedupFirst l ↔ x ∈ l := by
  simp [dedupFirst, mem_dedupFirstGo]

theorem dedupFirstGo_eq_nil {seen : List String} :
    ∀ {l : List String}, (∀ a ∈ l, a ∈ seen) → dedupFirstGo seen l = [] := by
  intro l
  induction l with
  | nil => intro _; rfl
  | cons a rest ih =>
      intro h
      rw [dedupFirstGo, if_pos (h a (List.mem_cons_self _ _))]
      exact ih fun b hb => h b (List.mem_cons_of_mem _ hb)

theorem dedupFirstGo_append_of_nodup :
    ∀ (l₁ seen l₂ : List String), l₁.Nodup →
      (∀ a ∈ l₁, a ∉ seen) → (∀ a ∈ l₂, a ∈ seen ∨ a ∈ l₁) →
      dedupFirstGo seen (l₁ ++ l₂) = l₁ := by
  intro l₁
  induction l₁ with
  | nil =>
      intro seen l₂ _ _ h₃
      refine dedupFirstGo_eq_nil fun a ha => ?_
      rcases h₃ a ha with h | h
      · exact h
      · exact absurd h (List.not_mem_nil a)
  | cons a r ih =>
      intro seen l₂ h₁ h₂ h₃
      have ha : a ∉ seen := h₂ a (List.mem_cons_self _ _)
      rw [List.cons_append, dedupFirstGo, if_neg ha]
      congr 1
      refine ih (a :: seen) l₂ (List.nodup_cons.mp h₁).2 ?_ ?_
      · intro b hb hc
        rcases List.mem_cons.mp hc with h4 | h4
        · exact (List.nodup_cons.mp h₁).1 (h4 ▸ hb)
        · exact h₂ b (List.mem_cons_of_mem _ hb) h4
      · intro b hb
        rcases h₃ b hb with h4 | h4
        · exact Or.inl (List.mem_cons_of_mem _ h4)
        · rcases List.mem_cons.mp h4 with h5 | h5
          · exact Or.inl (h5 ▸ List.mem_cons_self _ _)
          · exact Or.inr h5

theorem dedupFirst_append_self {l : List String} (h : l.Nodup) :
    dedupFirst (l ++ l) = l := by
  unfold dedupFirst
  exact dedupFirstGo_append_of_nodup l [] l h (by simp) fun a ha => Or.inr ha

theorem dedup_pair_same_key {a b : PublicResearcher} (h : mergeKey a = mergeKey b) :
    deduplicatePeople [a, b] = [mergePeople a b] := by
  simp [deduplicatePeople, dedupStep, lookupAssoc, setAssoc, h]

theorem dedup_pair_diff_key {a b : PublicResearcher} (h : ¬ mergeKey a = mergeKey b) :
    deduplicatePeople [a, b] = [a, b] := by
  simp [deduplicatePeople, dedupStep, lookupAssoc, setAssoc, h]

theorem sourceScore_bounds {q : ℚ} (h : SourceScore q) : 0 ≤ q ∧ q ≤ 1 := by
  rcases h with ⟨t, rfl⟩ | ⟨x, hx, rfl⟩ | rfl | rfl | rfl | rfl | rfl | rfl
  · unfold computeResearchScore
    rw [qmin_eq_min]
    constructor
    · refine le_min (by norm_num) ?_
      have hd : (0:ℚ) ≤ (researchHits t : ℚ) / (researchKeywords.length : ℚ) := by
        positivity
      linarith
    · exact min_le_left _ _
  · unfold openAlexScore
    rw [qmin_eq_min]
    constructor
    · refine le_min (by norm_num) (by linarith)
    · exact min_le_left _ _
  all_goals norm_num

theorem dedupStep_eq (acc : List (String × PublicResearcher)) (p : PublicResearcher) :
    dedupStep acc p =
      match lookupAssoc (mergeKey p) acc with
      | none => acc ++ [(mergeKey p, p)]
      | some existing => setAssoc (mergeKey p) (mergePeople existing p) acc := rfl

theorem dedupStep_score_bounds {acc : List (String × PublicResearcher)}
    {p : PublicResearcher}
    (hacc : ∀ e ∈ acc, 0 ≤ e.2.researchScore ∧ e.2.researchScore ≤ 1)
    (hp : 0 ≤ p.researchScore ∧ p.researchScore ≤ 1) :
    ∀ e ∈ dedupStep acc p, 0 ≤ e.2.researchScore ∧ e.2.researchScore ≤ 1 := by
  intro e he
  rw [dedupStep_eq] at he
  cases hcase : lookupAssoc (mergeKey p) acc with
  | none =>
      rw [hcase] at he
      simp only [List.mem_append, List.mem_singleton] at he
      rcases he with h1 | h1
      · exact hacc _ h1
      · rw [h1]
        exact hp
  | some ex =>
      rw [hcase] at he
      rcases setAssoc_mem he with h1 | h1
      · have hex := hacc _ (lookupAssoc_mem hcase)
        rw [h1]
        have hm : (mergePeople ex p).researchScore
            = qmin 1 (qmax ex.researchScore p.researchScore + 1/10) := rfl
        show 0 ≤ (mergePeople ex p).researchScore ∧ (mergePeople ex p).researchScore ≤ 1
        rw [hm, qmin_eq_min, qmax_eq_max]
        constructor
        · refine le_min (by norm_num) ?_
          have hle := le_max_left ex.researchScore p.researchScore
          linarith [hex.1]
        · exact min_le_left _ _
      · exact hacc _ h1

theorem dedup_fold_score_bounds :
    ∀ (people : List PublicResearcher) (acc : List (String × PublicResearcher)),
      (∀ e ∈ acc, 0 ≤ e.2.researchScore ∧ e.2.researchScore ≤ 1) →
      (∀ p ∈ people, 0 ≤ p.researchScore ∧ p.researchScore ≤ 1) →
      ∀ e ∈ people.foldl dedupStep acc, 0 ≤ e.2.researchScore ∧ e.2.researchScore ≤ 1 := by
  intro people
  induction people with
  | nil => intro acc hacc _ e he; exact hacc e he
  | cons p rest ih =>
      intro acc hacc hall e he
      rw [List.foldl_cons] at he
      exact ih (dedupStep acc p)
        (dedupStep_score_bounds hacc (hall p (List.mem_cons_self _ _)))
        (fun q hq => hall q (List.mem_cons_of_mem _ hq)) e he

/-! ### Claim theorems -/

/-- C1, counterexample: `candGhOa` and `candOaOnly` share the OpenAlex
identity-link value, yet a run containing both keeps two separate identities,
because the GitHub link of the first candidate takes over its merge key. -/
theorem c1_counterexample :
    candGhOa.openAlexUrl = candOaOnly.openAlexUrl ∧
    candGhOa.openAlexUrl ≠ none ∧
    (deduplicatePeople [candGhOa, candOaOnly]).length = 2 := by
  decide

/-- C1 (amended): two candidates processed in one run merge into the same
identity iff their merge keys agree, where the merge key is the first truthy
value of the GitHub link then the OpenAlex link, else the lower-cased trimmed
display name; the key ignores location, score, relevance and notes, so none
of those can cause a merge. -/
theorem c1_merge_iff_same_key (a b : PublicResearcher) :
    ((deduplicatePeople [a, b]).length = 1 ↔ mergeKey a = mergeKey b) ∧
    (∀ loc conf sc rel nt,
      mergeKey { a with
        location := loc
        locationConfidence := conf
        researchScore := sc
        isResearchLike := rel
        notes := nt } = mergeKey a) := by
  constructor
  · by_cases h : mergeKey a = mergeKey b
    · rw [dedup_pair_same_key h]
      simp [h]
    · rw [dedup_pair_diff_key h]
      simp [h]
  · intro loc conf sc rel nt
    rfl

/-- C2, counterexample: for a candidate whose only identity link is a
homepage, the code keys on the normalized display name, not on the homepage
link the claim prescribes. -/
theorem c2_counterexample :
    truthy candHomeOnly.homepageUrl = true ∧
    mergeKey candHomeOnly = "alice smith" ∧
    specMergeKey candHomeOnly = "https://alice.example" ∧
    mergeKey candHomeOnly ≠ specMergeKey candHomeOnly := by
  decide

/-- C2 (amended): the merge key never consults the homepage link; it agrees
with the spec priority order exactly when the homepage link is absent or
empty, and falls back to the lower-cased trimmed display name when both the
GitHub and OpenAlex links are missing. -/
theorem c2_merge_key_rule (p : PublicResearcher) :
    (∀ h, mergeKey { p with homepageUrl := h } = mergeKey p) ∧
    (truthy p.homepageUrl = false → mergeKey p = specMergeKey p) ∧
    (truthy p.githubUrl = false → truthy p.openAlexUrl = false →
      mergeKey p = strTrim (strLower p.name)) := by
  refine ⟨fun h => rfl, fun hh => ?_, fun hg ho => ?_⟩
  · unfold mergeKey specMergeKey
    by_cases hg : truthy p.githubUrl = true <;>
      by_cases ho : truthy p.openAlexUrl = true <;>
        simp [hg, ho, hh]
  · unfold mergeKey
    simp [hg, ho]

/-- C2 witness: the rule applied to concrete candidates. -/
theorem c2_merge_key_rule_holds :
    mergeKey candOaOnly = specMergeKey candOaOnly ∧
    mergeKey candBase = strTrim (strLower candBase.name) :=
  ⟨(c2_merge_key_rule candOaOnly).2.1 (by decide),
   (c2_merge_key_rule candBase).2.2 (by decide) (by decide)⟩

/-- C3, counterexample: a high-confidence candidate merging into a
low-confidence identity upgrades `bestLocationConfidence` but leaves the
stored `bestLocation` text unchanged, so the pair is not replaced together as
the claim states. -/
theorem c3_counterexample :
    confRank identNY.locationConfidence < confRank candPA.locationConfidence ∧
    (mergePeople identNY candPA).locationConfidence = .high ∧
    (mergePeople identNY candPA).location = some "New York" ∧
    candPA.location = some "Palo Alto, CA" ∧
    (mergePeople identNY candPA).location ≠ candPA.location := by
  with_unfolding_all decide

/-- C3 (amended): on a merge the two location fields are updated
independently: the confidence tier becomes the maximum of the two tiers
(keeping the stored value on ties, so it never downgrades), while the
location text is taken from the candidate only when the stored text is absent
or empty. -/
theorem c3_location_update_rule (e p : PublicResearcher) :
    confRank (mergePeople e p).locationConfidence
      = max (confRank e.locationConfidence) (confRank p.locationConfidence) ∧
    (confRank p.locationConfidence ≤ confRank e.locationConfidence →
      (mergePeople e p).locationConfidence = e.locationConfidence) ∧
    (confRank e.locationConfidence < confRank p.locationConfidence →
      (mergePeople e p).locationConfidence = p.locationConfidence) ∧
    (truthy e.location = true → (mergePeople e p).location = e.location) ∧
    (truthy e.location = false → (mergePeople e p).location = p.location) := by
  have hconf : (mergePeople e p).locationConfidence =
      if confRank p.locationConfidence > confRank e.locationConfidence
      then p.locationConfidence else e.locationConfidence := rfl
  have hloc : (mergePeople e p).location = jsOr e.location p.location := rfl
  refine ⟨?_, fun h => ?_, fun h => ?_, fun h => ?_, fun h => ?_⟩
  · by_cases hc : confRank p.locationConfidence > confRank e.locationConfidence
    · rw [hconf, if_pos hc, max_eq_right (le_of_lt hc)]
    · rw [hconf, if_neg hc, max_eq_left (not_lt.mp hc)]
  · rw [hconf, if_neg (not_lt.mpr h)]
  · rw [hconf, if_pos h]
  · rw [hloc]
    unfold jsOr
    rw [if_pos h]
  · rw [hloc]
    unfold jsOr
    rw [if_neg (by simp [h])]

/-- C3 witness: the rule applied to concrete identities. -/
theorem c3_location_update_rule_holds :
    (mergePeople candPA identNY).locationConfidence = candPA.locationConfidence ∧
    (mergePeople identNY candPA).location = identNY.location :=
  ⟨(c3_location_update_rule candPA identNY).2.1 (by decide),
   (c3_location_update_rule identNY candPA).2.2.2.1 (by decide)⟩

/-- C4: merging a candidate of score s into an identity of score e yields
evidence score min(1, max(e, s) + 0.1), both at the level of the merge
operation and of a two-candidate run with a shared merge key. -/
theorem c4_merge_score (a b : PublicResearcher) (h : mergeKey a = mergeKey b) :
    (mergePeople a b).researchScore
      = min 1 (max a.researchScore b.researchScore + 1/10) ∧
    (deduplicatePeople [a, b]).map PublicResearcher.researchScore
      = [min 1 (max a.researchScore b.researchScore + 1/10)] := by
  have hs : (mergePeople a b).researchScore
      = qmin 1 (qmax a.researchScore b.researchScore + 1/10) := rfl
  constructor
  · rw [hs, qmin_eq_min, qmax_eq_max]
  · rw [dedup_pair_same_key h]
    simp [hs, qmin_eq_min, qmax_eq_max]

/-- C4 witness: two same-key candidates with scores 0.2 and 0.9. -/
theorem c4_merge_score_holds :
    (deduplicatePeople [candGhOa, candGhOa2]).map PublicResearcher.researchScore
      = [min 1 (max candGhOa.researchScore candGhOa2.researchScore + 1/10)] :=
  (c4_merge_score candGhOa candGhOa2 (by decide)).2

/-- C5, counterexample: the Bay Area filter of `exportResults` excludes an
identity whose location is entirely unknown, even at the highest stored
confidence, contradicting the keep-unknowns policy of the claim. -/
theorem c5_counterexample :
    identUnknownLoc.location = none ∧
    identUnknownLoc.locationConfidence = .high ∧
    bayAreaFilter [identUnknownLoc] = [] := by
  with_unfolding_all decide

/-- C5 (amended): the `exportResults` filter keeps exactly the identities
whose lower-cased location text contains a Bay Area keyword; it ignores
`bestLocationConfidence` and always drops identities with an absent or empty
location, while `filterByPaloAlto` in `scraper-researchers.ts` instead always
keeps such identities. -/
theorem c5_location_filter_rule :
    (∀ (ps : List PublicResearcher) (p : PublicResearcher),
       p ∈ bayAreaFilter ps ↔ p ∈ ps ∧ bayAreaKeep p = true) ∧
    (∀ (p : PublicResearcher) (c : Confidence),
       bayAreaKeep { p with locationConfidence := c } = bayAreaKeep p) ∧
    (∀ p : PublicResearcher, truthy p.location = false → bayAreaKeep p = false) ∧
    (∀ r : Researcher, truthy r.location = false → paloAltoKeep r = true) := by
  refine ⟨?_, ?_, ?_, ?_⟩
  · intro ps p
    simp [bayAreaFilter, List.mem_filter]
  · intro p c
    rfl
  · intro p h
    unfold bayAreaKeep
    rcases hl : p.location with _ | s
    · decide
    · have hs : s = "" := by
        by_contra hs
        rw [hl] at h
        simp [truthy, hs] at h
      subst hs
      decide
  · intro r h
    unfold paloAltoKeep
    rw [h]
    simp

/-- C5 witness: the rule applied to concrete people. -/
theorem c5_location_filter_rule_holds :
    bayAreaKeep identUnknownLoc = false ∧ paloAltoKeep researcherNoLoc = true :=
  ⟨c5_location_filter_rule.2.2.1 identUnknownLoc (by decide),
   c5_location_filter_rule.2.2.2 researcherNoLoc (by decide)⟩

/-- C6, counterexample: the location text New York is classified low by the
tiered table of `assessLocationConfidence` but medium by the inline rules of
`fetchGitHubOrgMembers` and `fetchOrgContributors`, so the sources do not
share one fixed classification. -/
theorem c6_counterexample :
    assessLocationConfidence "New York" = .low ∧
    orgMemberLocationConfidence (some "New York") = .medium ∧
    contribLocationConfidence "New York" = .medium := by
  decide

/-- C6 (amended): `assessLocationConfidence` follows the tiered keyword table
with the high tier checked first and empty text forced low, but the GitHub
org-member and org-contributor sources use a different rule: high exactly
when a non-empty location mentions palo alto, medium for any other non-empty
location. -/
theorem c6_location_confidence_rules (s : String) :
    (assessLocationConfidence s = .high ↔
      s ≠ "" ∧ highConfidenceKeywords.any (fun k => strIncludes (strLower s) k) = true) ∧
    (assessLocationConfidence s = .medium ↔
      s ≠ "" ∧ highConfidenceKeywords.any (fun k => strIncludes (strLower s) k) = false ∧
        mediumConfidenceKeywords.any (fun k => strIncludes (strLower s) k) = true) ∧
    (contribLocationConfidence s = .high ↔
      s ≠ "" ∧ strIncludes (strLower s) "palo alto" = true) ∧
    orgMemberLocationConfidence (some s) = contribLocationConfidence s := by
  by_cases hs : s = ""
  · subst hs
    refine ⟨?_, ?_, ?_, ?_⟩ <;> decide
  · have ht : truthy (some s) = true := by simp [truthy, hs]
    unfold assessLocationConfidence contribLocationConfidence orgMemberLocationConfidence
    rw [ht]
    by_cases hh : highConfidenceKeywords.any (fun k => strIncludes (strLower s) k) = true <;>
      by_cases hm : mediumConfidenceKeywords.any (fun k => strIncludes (strLower s) k) = true <;>
        by_cases hp : strIncludes (strLower s) "palo alto" = true <;>
          simp [hs, hh, hm, hp]

/-- C7: after inserting any candidates whose scores were produced by the
source connectors and merging them in any way the resolver does, every
identity in the working set has an evidence score inside the closed
interval from 0 to 1. -/
theorem c7_score_bounds (people : List PublicResearcher)
    (h : ∀ p ∈ people, SourceScore p.researchScore) :
    ∀ q ∈ deduplicatePeople people, 0 ≤ q.researchScore ∧ q.researchScore ≤ 1 := by
  intro q hq
  unfold deduplicatePeople at hq
  rcases List.mem_map.mp hq with ⟨e, he, rfl⟩
  exact dedup_fold_score_bounds people [] (by simp)
    (fun p hp => sourceScore_bounds (h p hp)) e he

/-- C7 witness: a run of two copies of a keyword-scored candidate. -/
theorem c7_score_bounds_holds :
    0 ≤ (mergePeople candScored candScored).researchScore ∧
      (mergePeople candScored candScored).researchScore ≤ 1 :=
  c7_score_bounds [candScored, candScored]
    (by
      intro p hp
      have hpc : p = candScored := by
        rcases List.mem_cons.mp hp with h | h
        · exact h
        · rcases List.mem_cons.mp h with h2 | h2
          · exact h2
          · exact absurd h2 (List.not_mem_nil p)
      subst hpc
      exact Or.inl ⟨"ml research", rfl⟩)
    (mergePeople candScored candScored) (by with_unfolding_all decide)

/-- C8: merging the same candidate (whose recorded sources hold no duplicate
entries, as every connector guarantees) into the working set twice yields the
identity of the single-merge run with every claimed field unchanged except
the evidence score, which becomes min(1, score + 0.1). -/
theorem c8_merge_twice (p : PublicResearcher) (h : p.otherSources.Nodup) :
    deduplicatePeople [p] = [p] ∧
    deduplicatePeople [p, p] = [mergePeople p p] ∧
    (mergePeople p p).name = p.name ∧
    (mergePeople p p).githubUrl = p.githubUrl ∧
    (mergePeople p p).openAlexUrl = p.openAlexUrl ∧
    (mergePeople p p).homepageUrl = p.homepageUrl ∧
    (mergePeople p p).location = p.location ∧
    (mergePeople p p).locationConfidence = p.locationConfidence ∧
    (mergePeople p p).isResearchLike = p.isResearchLike ∧
    (mergePeople p p).otherSources = p.otherSources ∧
    (mergePeople p p).researchScore = min 1 (p.researchScore + 1/10) := by
  refine ⟨?_, dedup_pair_same_key rfl, rfl, jsOr_self _, jsOr_self _, jsOr_self _,
    jsOr_self _, ?_, Bool.or_self _, ?_, ?_⟩
  · simp [deduplicatePeople, dedupStep, lookupAssoc]
  · show (if confRank p.locationConfidence > confRank p.locationConfidence
      then p.locationConfidence else p.locationConfidence) = p.locationConfidence
    rw [if_neg (lt_irrefl _)]
  · show dedupFirst (p.otherSources ++ p.otherSources) = p.otherSources
    exact dedupFirst_append_self h
  · show qmin 1 (qmax p.researchScore p.researchScore + 1/10)
      = min 1 (p.researchScore + 1/10)
    rw [qmin_eq_min, qmax_eq_max, max_self]

/-- C8 witness: a duplicate-free concrete candidate merged twice. -/
theorem c8_merge_twice_holds :
    deduplicatePeople [candGhOa, candGhOa] = [mergePeople candGhOa candGhOa] ∧
    (mergePeople candGhOa candGhOa).researchScore
      = min 1 (candGhOa.researchScore + 1/10) := by
  obtain ⟨h1, h2, h3, h4, h5, h6, h7, h8, h9, h10, h11⟩ :=
    c8_merge_twice candGhOa (by decide)
  exact ⟨h2, h11⟩

/-- C9, counterexample: two candidates with the same merge key but different
OpenAlex links produce identities whose identity links depend on processing
order, so more than just the canonical name is order-sensitive. -/
theorem c9_counterexample :
    mergeKey candOaP = mergeKey candOaQ ∧
    (deduplicatePeople [candOaP, candOaQ]).map PublicResearcher.openAlexUrl
      ≠ (deduplicatePeople [candOaQ, candOaP]).map PublicResearcher.openAlexUrl := by
  with_unfolding_all decide

/-- C9 (amended): for two same-key candidates the relevance flag, the merged
score and the membership of the source set are order-independent, and the
canonical name follows first-seen-wins; the identity-link fields also follow
first-seen-wins and therefore may depend on order. -/
theorem c9_order_invariants (a b : PublicResearcher) (h : mergeKey a = mergeKey b) :
    deduplicatePeople [a, b] = [mergePeople a b] ∧
    deduplicatePeople [b, a] = [mergePeople b a] ∧
    (mergePeople a b).isResearchLike = (mergePeople b a).isResearchLike ∧
    (mergePeople a b).researchScore = (mergePeople b a).researchScore ∧
    (∀ s, s ∈ (mergePeople a b).otherSources ↔ s ∈ (mergePeople b a).otherSources) ∧
    (mergePeople a b).name = a.name ∧ (mergePeople b a).name = b.name := by
  refine ⟨dedup_pair_same_key h, dedup_pair_same_key h.symm, ?_, ?_, ?_, rfl, rfl⟩
  · show (a.isResearchLike || b.isResearchLike) = (b.isResearchLike || a.isResearchLike)
    exact Bool.or_comm _ _
  · show qmin 1 (qmax a.researchScore b.researchScore + 1/10)
      = qmin 1 (qmax b.researchScore a.researchScore + 1/10)
    rw [qmax_eq_max, qmax_eq_max, max_comm]
  · intro s
    show s ∈ dedupFirst (a.otherSources ++ b.otherSources)
      ↔ s ∈ dedupFirst (b.otherSources ++ a.otherSources)
    rw [mem_dedupFirst, mem_dedupFirst, List.mem_append, List.mem_append]
    exact or_comm

/-- C9 witness: the invariants at the concrete same-key pair. -/
theorem c9_order_invariants_holds :
    (mergePeople candOaP candOaQ).isResearchLike
      = (mergePeople candOaQ candOaP).isResearchLike ∧
    (mergePeople candOaP candOaQ).researchScore
      = (mergePeople candOaQ candOaP).researchScore := by
  obtain ⟨-, -, h3, h4, -, -, -⟩ := c9_order_invariants candOaP candOaQ (by decide)
  exact ⟨h3, h4⟩

/-- C10: computeResearchScore has floor 0.2 on every text, and exceeds the
floor exactly when isResearchLike accepts the text, both scanning the same
keyword list by substring containment. -/
theorem c10_score_floor_and_relevance (t : String) :
    1/5 ≤ computeResearchScore t ∧
    (1/5 < computeResearchScore t ↔ isResearchLike t = true) := by
  have hlen : (0:ℚ) < (researchKeywords.length : ℚ) := by norm_num [researchKeywords]
  have hrel : isResearchLike t = true ↔ 0 < researchHits t := by
    unfold isResearchLike researchHits
    rw [List.any_eq_true, List.length_pos_iff_exists_mem]
    constructor
    · rintro ⟨k, hk, hks⟩
      exact ⟨k, List.mem_filter.mpr ⟨hk, hks⟩⟩
    · rintro ⟨k, hk⟩
      obtain ⟨h1, h2⟩ := List.mem_filter.mp hk
      exact ⟨k, h1, h2⟩
  unfold computeResearchScore
  rw [qmin_eq_min]
  have hnn : (0:ℚ) ≤ (researchHits t : ℚ) / (researchKeywords.length : ℚ) := by
    positivity
  constructor
  · exact le_min (by norm_num) (by linarith)
  · rw [lt_min_iff, hrel]
    constructor
    · rintro ⟨-, h2⟩
      by_contra hc
      have h0 : researchHits t = 0 := Nat.le_zero.mp (Nat.not_lt.mp hc)
      rw [h0] at h2
      norm_num at h2
    · intro hpos
      have hq : (0:ℚ) < (researchHits t : ℚ) := by exact_mod_cast hpos
      have hd : (0:ℚ) < (researchHits t : ℚ) / (researchKeywords.length : ℚ) :=
        div_pos hq hlen
      exact ⟨by norm_num, by linarith⟩
